import Mathlib

/-!
Shallow embedding of the MosaicFlow persistence core (Rust, `src-tauri`).

Conventions used throughout:
* Rust `String` / `&str` are Lean `String`; `Vec<T>` is `List T`;
  `Option<T>` is `Option T`; `usize`/`u32` are `Nat`; `i32` is `Int`.
* `f64` fields are modelled as `Rat`.  The modelled operations never perform
  floating-point arithmetic on them: they only store and copy constants
  (`0.0`, `1.0`, node coordinates), so the embedding is exact.
* `serde_json::Value` is the inductive `Json` below; a JSON object document
  is an association list `JsonDoc` (first binding wins on lookup, setting a
  key replaces the first binding or appends, matching how `serde_json` map
  indexing behaves on object values).
* Nondeterministic inputs of the code (`core::generate_uuid()`,
  `core::now_iso()`) are passed in as explicit string parameters, one per
  call site.
* Filesystem reads are modelled by `FileState`: a file is absent, is present
  but fails to read or parse (`corrupt`), or parses to a value.  Fallible
  operations return `Except MosaicError`.
-/

/-- JSON values as handled by `serde_json::Value`.  Numbers are modelled as
rationals; none of the modelled operations inspect numeric payloads. -/
inductive Json where
  | null : Json
  | bool (b : Bool) : Json
  | num (q : Rat) : Json
  | str (s : String) : Json
  | arr (elems : List Json) : Json
  | obj (fields : List (String × Json)) : Json

/-- A JSON object document: an ordered association list of fields. -/
abbrev JsonDoc := List (String × Json)

/-- `doc.get(key)`: first binding for `key`, if any. -/
def jget : JsonDoc → String → Option Json
  | [], _ => none
  | (k', v') :: rest, k => if k' = k then some v' else jget rest k

/-- `doc[key] = v`: replace the first binding for `key`, or append one. -/
def jset : JsonDoc → String → Json → JsonDoc
  | [], k, v => [(k, v)]
  | (k', v') :: rest, k, v =>
      if k' = k then (k', v) :: rest else (k', v') :: jset rest k v

/-- Error taxonomy (collapsed to what the modelled operations produce). -/
inductive MosaicError where
  | notFound (path : String) : MosaicError
  | invalidJson : MosaicError
  | ioError : MosaicError
deriving DecidableEq

/-- Result of reading one file: absent on disk, unreadable/unparsable, or
successfully parsed to a value. -/
inductive FileState (α : Type) where
  | absent : FileState α
  | corrupt : FileState α
  | present (value : α) : FileState α

/-! ## Workspace document (`models/workspace.rs`) -/

/-- `Position` (f64 coordinates, modelled as ℚ). -/
structure Position where
  x : Rat
  y : Rat
deriving DecidableEq

/-- `WorkspaceNode`. -/
structure WorkspaceNode where
  id : String
  node_type : String
  position : Position
  width : Option Rat
  height : Option Rat
  z_index : Int
  parent_id : Option String
  data : List (String × Json)

/-- `WorkspaceEdge`. -/
structure WorkspaceEdge where
  id : String
  source : String
  target : String
  source_handle : Option String
  target_handle : Option String
  edge_type : String
  label : Option String
  animated : Bool
  data : List (String × Json)

/-- `WorkspaceSettings`. -/
structure WorkspaceSettings where
  grid_size : Nat
  snap_to_grid : Bool
  show_minimap : Bool
  auto_save : Bool
  auto_save_interval : Nat
  theme : String
  default_node_color : String
  default_edge_color : String
deriving DecidableEq

/-- The hand-written `impl Default for WorkspaceSettings`. -/
def WorkspaceSettings.rustDefault : WorkspaceSettings :=
  ⟨20, true, true, true, 1000, "dark", "#1e1e1e", "#555555"⟩

/-- `WorkspaceData` (the per-canvas `workspace.json` document). -/
structure WorkspaceData where
  version : String
  nodes : List WorkspaceNode
  edges : List WorkspaceEdge
  settings : WorkspaceSettings

/-- `WorkspaceData::new()` = the derived `Default`: note that the derive
uses `String::default()` (the empty string) for `version`; the
`default_version` function ("2.0.0") is only a serde field default. -/
def WorkspaceData.new : WorkspaceData :=
  ⟨"", [], [], WorkspaceSettings.rustDefault⟩

/-- `WorkspaceData::add_node`: `self.nodes.push(node)`. -/
def WorkspaceData.add_node (d : WorkspaceData) (node : WorkspaceNode) : WorkspaceData :=
  { d with nodes := d.nodes ++ [node] }

/-- `WorkspaceData::add_edge`: `self.edges.push(edge)`. -/
def WorkspaceData.add_edge (d : WorkspaceData) (edge : WorkspaceEdge) : WorkspaceData :=
  { d with edges := d.edges ++ [edge] }

/-- `WorkspaceData::remove_node`: retain nodes with a different id, retain
edges whose source and target both differ from the removed id. -/
def WorkspaceData.remove_node (d : WorkspaceData) (node_id : String) : WorkspaceData :=
  { d with
    nodes := d.nodes.filter (fun n => n.id != node_id),
    edges := d.edges.filter (fun e => e.source != node_id && e.target != node_id) }

/-- `WorkspaceData::remove_edge`: retain edges with a different id. -/
def WorkspaceData.remove_edge (d : WorkspaceData) (edge_id : String) : WorkspaceData :=
  { d with edges := d.edges.filter (fun e => e.id != edge_id) }

/-- `WorkspaceService::load` with the filesystem abstracted: an absent
`workspace.json` yields `WorkspaceData::new()`, a parse failure is an
error, otherwise the parsed document. -/
def WorkspaceService.load : FileState WorkspaceData → Except MosaicError WorkspaceData
  | .absent => .ok WorkspaceData.new
  | .corrupt => .error .invalidJson
  | .present d => .ok d

/-- The pure core of `WorkspaceService::batch_update` (between the single
load and the single save): all removals first (nodes then edges), then all
additions (nodes then edges). -/
def WorkspaceService.batch_update (d : WorkspaceData)
    (nodes_to_add : List WorkspaceNode) (nodes_to_remove : List String)
    (edges_to_add : List WorkspaceEdge) (edges_to_remove : List String) :
    WorkspaceData :=
  let d1 := nodes_to_remove.foldl (fun acc nid => acc.remove_node nid) d
  let d2 := edges_to_remove.foldl (fun acc eid => acc.remove_edge eid) d1
  let d3 := nodes_to_add.foldl (fun acc n => acc.add_node n) d2
  edges_to_add.foldl (fun acc e => acc.add_edge e) d3

/-! ## History (`models/history.rs`, `services/history_service.rs`) -/

/-- `VaultHistoryEntry`. -/
structure VaultHistoryEntry where
  id : String
  name : String
  path : String
  last_opened : String
  open_count : Nat
  added_at : String
deriving DecidableEq

/-- `CanvasHistoryEntry`. -/
structure CanvasHistoryEntry where
  id : String
  vault_id : String
  name : String
  path : String
  last_opened : String
  open_count : Nat
  added_at : String
deriving DecidableEq

/-- `AppHistory`. -/
structure AppHistory where
  vaults : List VaultHistoryEntry
  canvases : List CanvasHistoryEntry
  max_items : Nat
deriving DecidableEq

/-- `default_max_history()` — the serde field default for `max_items`,
applied only when deserializing a document that lacks the field. -/
def default_max_history : Nat := 50

/-- `AppHistory::default()` as produced by `#[derive(Default)]`: every field
takes its `Default::default()`, so `max_items = usize::default() = 0`.
The serde default `default_max_history` does not participate in the derive. -/
def AppHistory.rustDefault : AppHistory :=
  ⟨[], [], 0⟩

/-- `iter_mut().find(p)` followed by a mutation: update the first element
satisfying `p`, leave everything else in place. -/
def updateFirst (p : α → Bool) (f : α → α) : List α → List α
  | [] => []
  | x :: xs => if p x then f x :: xs else x :: updateFirst p f xs

/-- `AppHistory::track_vault` with `core::now_iso()` passed in as `now`:
upsert by id (update the first entry with this id, else push a new entry
with `open_count = 1`), then stable-sort by `last_opened` descending, then
truncate to `max_items` if over the cap. -/
def AppHistory.track_vault (h : AppHistory) (now id name path : String) : AppHistory :=
  let vaults1 :=
    if h.vaults.any (fun v => v.id == id) then
      updateFirst (fun v => v.id == id)
        (fun v => { v with name := name, path := path, last_opened := now,
                           open_count := v.open_count + 1 })
        h.vaults
    else
      h.vaults ++ [⟨id, name, path, now, 1, now⟩]
  let sorted := vaults1.mergeSort (fun a b => decide (b.last_opened ≤ a.last_opened))
  let final := if sorted.length > h.max_items then sorted.take h.max_items else sorted
  { h with vaults := final }

/-- One `track_vault` invocation: the timestamp the clock returned and the
three string arguments. -/
structure TrackCall where
  now : String
  id : String
  name : String
  path : String

/-- A sequence of `track_vault` calls applied in order. -/
def applyTracks (h : AppHistory) (calls : List TrackCall) : AppHistory :=
  calls.foldl (fun acc c => acc.track_vault c.now c.id c.name c.path) h

/-- `HistoryService::load` with the filesystem abstracted: an absent
`history.json` yields `AppHistory::default()` (the derived default). -/
def HistoryService.load : FileState AppHistory → Except MosaicError AppHistory
  | .absent => .ok AppHistory.rustDefault
  | .corrupt => .error .invalidJson
  | .present h => .ok h

/-! ## Canvas UI state (`models/canvas.rs`, `services/canvas_service.rs`) -/

/-- `ViewportState` (f64 fields as ℚ). -/
structure ViewportState where
  x : Rat
  y : Rat
  zoom : Rat
deriving DecidableEq

/-- The hand-written `impl Default for ViewportState`: origin, zoom 1.0. -/
def ViewportState.rustDefault : ViewportState := ⟨0, 0, 1⟩

/-- `CanvasUIState`. -/
structure CanvasUIState where
  viewport : ViewportState
  selected_nodes : List String
  selected_edges : List String
  canvas_mode : String
  updated_at : String
deriving DecidableEq

/-- `default_canvas_mode()` — the serde field default for `canvas_mode`,
applied only when deserializing a document that lacks the field. -/
def default_canvas_mode : String := "select"

/-- `CanvasUIState::default()` as produced by `#[derive(Default)]`:
`viewport` uses the hand-written `ViewportState` default, the selection
vectors are empty, and `canvas_mode`/`updated_at` take
`String::default()`, the empty string.  The serde default
`default_canvas_mode` does not participate in the derive. -/
def CanvasUIState.rustDefault : CanvasUIState :=
  ⟨ViewportState.rustDefault, [], [], "", ""⟩

/-- `CanvasService::load_state` with the filesystem abstracted: an absent
`state.json` yields `CanvasUIState::default()`. -/
def CanvasService.load_state : FileState CanvasUIState → Except MosaicError CanvasUIState
  | .absent => .ok CanvasUIState.rustDefault
  | .corrupt => .error .invalidJson
  | .present s => .ok s

/-- `CanvasMeta` (`.mosaic/meta.json`). -/
structure CanvasMeta where
  id : String
  vault_id : String
  name : String
  description : String
  tags : List String
  created_at : String
  updated_at : String
  version : String
deriving DecidableEq

/-- `CanvasMeta::new(id, vault_id, name)` with `core::now_iso()` as `now`. -/
def CanvasMeta.new (id vault_id name now : String) : CanvasMeta :=
  ⟨id, vault_id, name, "", [], now, now, "2.0.0"⟩

/-! ## App state (`models/state.rs`, `services/state_service.rs`) -/

/-- `AppState` (`data/data.json`). -/
structure AppState where
  last_vault_id : Option String
  last_canvas_id : Option String
  updated_at : String
  version : String
deriving DecidableEq

/-- `AppState::new()` with `core::now_iso()` as `now`. -/
def AppState.new (now : String) : AppState :=
  ⟨none, none, now, "1.0.0"⟩

/-- `AppState::set_last_opened`: overwrite `last_vault_id` only when a vault
id is supplied, overwrite `last_canvas_id` only when a canvas id is
supplied, then stamp `updated_at`. -/
def AppState.set_last_opened (s : AppState) (now : String)
    (vault_id canvas_id : Option String) : AppState :=
  let s1 := if vault_id.isSome then { s with last_vault_id := vault_id } else s
  let s2 := if canvas_id.isSome then { s1 with last_canvas_id := canvas_id } else s1
  { s2 with updated_at := now }

/-- `StateService::load` with the filesystem abstracted: an absent
`data.json` yields `AppState::new()` (built at time `loadNow`). -/
def StateService.load (file : FileState AppState) (loadNow : String) :
    Except MosaicError AppState :=
  match file with
  | .absent => .ok (AppState.new loadNow)
  | .corrupt => .error .invalidJson
  | .present s => .ok s

/-- `StateService::update_last_opened`: load, `set_last_opened`, save; the
saved record is the returned value. -/
def StateService.update_last_opened (file : FileState AppState)
    (loadNow stampNow : String) (vault_id canvas_id : Option String) :
    Except MosaicError AppState :=
  (StateService.load file loadNow).map
    (fun s => s.set_last_opened stampNow vault_id canvas_id)

/-! ## Migration engine (`services/migration_service.rs`) -/

/-- The in-place field rewriting of `MigrationService::migrate_vault` on the
parsed `vault.json` document: inject `id` (a fresh UUID `uuid`) if absent,
inject empty `description` if absent, overwrite `version` with "2.0.0" and
`updated_at` with `now`. -/
def migrate_vault_doc (j : JsonDoc) (uuid now : String) : JsonDoc :=
  let j1 := if (jget j "id").isNone then jset j "id" (Json.str uuid) else j
  let j2 := if (jget j1 "description").isNone
            then jset j1 "description" (Json.str "") else j1
  let j3 := jset j2 "version" (Json.str "2.0.0")
  jset j3 "updated_at" (Json.str now)

/-- What `get_vault_id_from_canvas_path` finds at `root/../../vault.json`:
no such file (or no grandparent directory), a file that fails
`read_string`, a file whose content fails JSON parsing, or a parsed
document. -/
inductive VaultLookup where
  | noVaultJson : VaultLookup
  | unreadable : VaultLookup
  | malformed : VaultLookup
  | parsed (doc : JsonDoc) : VaultLookup

/-- `MigrationService::get_vault_id_from_canvas_path`: every failure mode
collapses to `none` (the function returns `Option`, using `.ok()?` on the
read and parse); a parsed document yields its `id` field only when that
field is present and is a string. -/
def get_vault_id_from_canvas_path : VaultLookup → Option String
  | .noVaultJson => none
  | .unreadable => none
  | .malformed => none
  | .parsed doc =>
      match jget doc "id" with
      | some (Json.str s) => some s
      | _ => none

/-- The metadata construction of `MigrationService::migrate_canvas`.
`oldFile` is the legacy `canvas.json`; if it exists but fails to read or
parse, the migration fails.  Otherwise the canvas id and name come from the
legacy document (with fallbacks `uid` — a fresh UUID — and "Untitled"), or,
when no legacy file exists, from a fresh UUID and the folder name `fname`.
The vault id is the result of the grandparent lookup, falling back to the fresh
UUID `ufb` when that lookup yields `none`. -/
def migrate_canvas_meta (oldFile : FileState JsonDoc) (lk : VaultLookup)
    (uid ufb now fname : String) : Except MosaicError CanvasMeta :=
  match oldFile with
  | .corrupt => .error .invalidJson
  | .present j =>
      let id := match jget j "id" with
        | some (Json.str s) => s
        | _ => uid
      let name := match jget j "name" with
        | some (Json.str s) => s
        | _ => "Untitled"
      let vid := (get_vault_id_from_canvas_path lk).getD ufb
      .ok (CanvasMeta.new id vid name now)
  | .absent =>
      let vid := (get_vault_id_from_canvas_path lk).getD ufb
      .ok (CanvasMeta.new uid vid fname now)

/-! ## Name sanitization and folder-name collision (`core/paths.rs`,
`services/canvas_service.rs`) -/

/-- The character test of `sanitize_name`: alphanumeric, dash, underscore or
space.  The Rust `char::is_alphanumeric` is Unicode-aware; the embedding uses
`Char.isAlphanum`, which agrees with it on ASCII.  The properties proved
below hold for either classifier. -/
def keep_char (c : Char) : Bool :=
  c.isAlphanum || c == '-' || c == '_' || c == ' '

/-- The per-character map of `sanitize_name`: keep allowed characters,
replace everything else with an underscore. -/
def map_char (c : Char) : Char :=
  if keep_char c then c else '_'

/-- `str::trim` on a character list: drop whitespace from the front, then
from the back. -/
def trimChars (l : List Char) : List Char :=
  ((l.dropWhile Char.isWhitespace).reverse.dropWhile Char.isWhitespace).reverse

/-- `sanitize_name` on the character sequence: map every character, then
trim whitespace from both ends. -/
def sanitize_chars (l : List Char) : List Char :=
  trimChars (l.map map_char)

/-- `core::paths::sanitize_name`. -/
def sanitize_name (s : String) : String :=
  ⟨sanitize_chars s.data⟩

/-- The collision loop of `CanvasService::create`, probing
`base_1, base_2, ...` in order until a name is free.  The source loop is
unbounded; because the probed candidates are pairwise distinct strings that
must all occur in `existing` for the loop to continue, it performs at most
`existing.length` probes, so running it with fuel `existing.length + 1`
(as `create_folder_name` below does) never reaches the fuel-exhausted
case. -/
def scan_suffix (existing : List String) (base : String) : Nat → Nat → String
  | _, 0 => base
  | c, fuel + 1 =>
      let cand := base ++ "_" ++ Nat.repr c
      if existing.contains cand then scan_suffix existing base (c + 1) fuel else cand

/-- The folder-name choice of `CanvasService::create`: sanitize the
requested name; if that folder already exists (`existing` is the set of
folder names present in the canvases directory), scan `_1, _2, ...` for the
first free suffix. -/
def create_folder_name (existing : List String) (name : String) : String :=
  let folder_name := sanitize_name name
  if existing.contains folder_name then
    scan_suffix existing folder_name 1 (existing.length + 1)
  else
    folder_name

/-! ## Lemmas about JSON documents -/

theorem jget_jset_self (d : JsonDoc) (k : String) (v : Json) :
    jget (jset d k v) k = some v := by
  induction d with
  | nil => simp [jset, jget]
  | cons kv rest ih =>
    obtain ⟨k', v'⟩ := kv
    by_cases h : k' = k <;> simp [jset, jget, h, ih]

theorem jget_jset_ne (d : JsonDoc) (k k' : String) (v : Json) (hne : k' ≠ k) :
    jget (jset d k v) k' = jget d k' := by
  have hne' : k ≠ k' := Ne.symm hne
  induction d with
  | nil => simp [jset, jget, hne']
  | cons kv rest ih =>
    obtain ⟨k0, v0⟩ := kv
    by_cases h : k0 = k
    · subst h
      simp [jset, jget, hne']
    · simp [jset, jget, h, ih]

theorem migrate_vault_doc_jget_id (d : JsonDoc) (u t : String) :
    jget (migrate_vault_doc d u t) "id" =
      if (jget d "id").isNone then some (Json.str u) else jget d "id" := by
  have hvu : ("id" : String) ≠ "updated_at" := by decide
  have hv : ("id" : String) ≠ "version" := by decide
  have hd : ("id" : String) ≠ "description" := by decide
  simp only [migrate_vault_doc]
  set j1 := if (jget d "id").isNone then jset d "id" (Json.str u) else d with hj1
  set j2 := if (jget j1 "description").isNone
            then jset j1 "description" (Json.str "") else j1 with hj2
  rw [jget_jset_ne _ _ _ _ hvu, jget_jset_ne _ _ _ _ hv]
  have h2 : jget j2 "id" = jget j1 "id" := by
    rw [hj2]
    by_cases h : (jget j1 "description").isNone = true
    · rw [if_pos h, jget_jset_ne _ _ _ _ hd]
    · rw [if_neg h]
  rw [h2, hj1]
  by_cases h : (jget d "id").isNone = true
  · rw [if_pos h, if_pos h, jget_jset_self]
  · rw [if_neg h, if_neg h]

theorem migrate_vault_doc_jget_version (d : JsonDoc) (u t : String) :
    jget (migrate_vault_doc d u t) "version" = some (Json.str "2.0.0") := by
  simp only [migrate_vault_doc]
  rw [jget_jset_ne _ _ _ _ (by decide : ("version" : String) ≠ "updated_at"),
    jget_jset_self]

/-- C2: a legacy vault document lacking `id` gets the freshly generated
UUID as `id` and version "2.0.0" on the first migration pass, and a second
migration pass (with a different fresh UUID and timestamp) keeps the `id`
assigned by the first pass. -/
theorem migrate_vault_id_idempotent (d : JsonDoc) (u1 t1 u2 t2 : String)
    (hid : jget d "id" = none) :
    jget (migrate_vault_doc d u1 t1) "id" = some (Json.str u1) ∧
    jget (migrate_vault_doc d u1 t1) "version" = some (Json.str "2.0.0") ∧
    jget (migrate_vault_doc (migrate_vault_doc d u1 t1) u2 t2) "id" =
      some (Json.str u1) := by
  have h1 : jget (migrate_vault_doc d u1 t1) "id" = some (Json.str u1) := by
    rw [migrate_vault_doc_jget_id, hid]
    rfl
  refine ⟨h1, migrate_vault_doc_jget_version d u1 t1, ?_⟩
  rw [migrate_vault_doc_jget_id, h1]
  rfl

/-- C2 witness: a concrete legacy document (a name field only). -/
theorem migrate_vault_id_idempotent_witness :
    jget (migrate_vault_doc [("name", Json.str "MyVault")] "u1" "t1") "id" =
      some (Json.str "u1") ∧
    jget (migrate_vault_doc [("name", Json.str "MyVault")] "u1" "t1") "version" =
      some (Json.str "2.0.0") ∧
    jget (migrate_vault_doc
            (migrate_vault_doc [("name", Json.str "MyVault")] "u1" "t1")
            "u2" "t2") "id" = some (Json.str "u1") :=
  migrate_vault_id_idempotent [("name", Json.str "MyVault")] "u1" "t1" "u2" "t2" rfl

/-! ## C1: `remove_node` cascade -/

/-- C1: `remove_node` deletes exactly the nodes with the removed id and
exactly the edges having it as an endpoint: a node is in the result iff it
was in the document and its id differs from the removed id, and an edge is
in the result iff it was in the document and neither its source nor its
target equals the removed id. -/
theorem remove_node_spec (d : WorkspaceData) (n : String)
    (nd : WorkspaceNode) (e : WorkspaceEdge) :
    (nd ∈ (d.remove_node n).nodes ↔ nd ∈ d.nodes ∧ nd.id ≠ n) ∧
    (e ∈ (d.remove_node n).edges ↔ e ∈ d.edges ∧ e.source ≠ n ∧ e.target ≠ n) := by
  constructor
  · simp [WorkspaceData.remove_node, List.mem_filter]
  · simp [WorkspaceData.remove_node, List.mem_filter, and_assoc]

/-- C1 witness: in a document with one node and two edges, removing node
"n2" keeps the node "n1" and the edge between "n1" and "n3". -/
theorem remove_node_spec_witness :
    (⟨"n1", "note", ⟨0, 0⟩, none, none, 1, none, []⟩ : WorkspaceNode) ∈
      (WorkspaceData.remove_node
        ⟨"2.0.0",
         [⟨"n1", "note", ⟨0, 0⟩, none, none, 1, none, []⟩],
         [⟨"e1", "n1", "n3", none, none, "default", none, false, []⟩,
          ⟨"e2", "n1", "n2", none, none, "default", none, false, []⟩],
         WorkspaceSettings.rustDefault⟩ "n2").nodes ∧
    (⟨"e1", "n1", "n3", none, none, "default", none, false, []⟩ : WorkspaceEdge) ∈
      (WorkspaceData.remove_node
        ⟨"2.0.0",
         [⟨"n1", "note", ⟨0, 0⟩, none, none, 1, none, []⟩],
         [⟨"e1", "n1", "n3", none, none, "default", none, false, []⟩,
          ⟨"e2", "n1", "n2", none, none, "default", none, false, []⟩],
         WorkspaceSettings.rustDefault⟩ "n2").edges := by
  constructor
  · exact (remove_node_spec _ "n2" _
      ⟨"e1", "n1", "n3", none, none, "default", none, false, []⟩).1.mpr
      ⟨List.mem_cons_self _ _, by decide⟩
  · exact (remove_node_spec _ "n2"
      ⟨"n1", "note", ⟨0, 0⟩, none, none, 1, none, []⟩ _).2.mpr
      ⟨List.mem_cons_self _ _, by decide, by decide⟩

/-! ## C4: `batch_update` remove-before-add -/

/-- C4: `batch_update` applies removals before additions; in particular,
removing the id of a node and adding a replacement node with the same id in one
batch leaves the removed-then-extended node list, and exactly one node with
that id remains. -/
theorem batch_update_remove_before_add (d : WorkspaceData) (A A' : WorkspaceNode)
    (_hA : A ∈ d.nodes) (hid : A'.id = A.id) :
    (WorkspaceService.batch_update d [A'] [A.id] [] []).nodes
      = (d.remove_node A.id).nodes ++ [A'] ∧
    (WorkspaceService.batch_update d [A'] [A.id] [] []).nodes.countP
      (fun nd => nd.id == A.id) = 1 := by
  have hnodes : (WorkspaceService.batch_update d [A'] [A.id] [] []).nodes
      = (d.remove_node A.id).nodes ++ [A'] := by
    simp [WorkspaceService.batch_update, WorkspaceData.remove_edge,
      WorkspaceData.add_node]
  refine ⟨hnodes, ?_⟩
  rw [hnodes, List.countP_append]
  have h0 : (d.remove_node A.id).nodes.countP (fun nd => nd.id == A.id) = 0 := by
    rw [List.countP_eq_zero]
    intro nd hnd
    have := ((remove_node_spec d A.id nd
      ⟨"", "", "", none, none, "", none, false, []⟩).1.mp hnd).2
    simpa using this
  rw [h0]
  simp [hid]

/-- C4 witness: a one-node document; the batch replaces the node and exactly
one node with its id remains. -/
theorem batch_update_remove_before_add_witness :
    (WorkspaceService.batch_update
        ⟨"2.0.0", [⟨"n1", "note", ⟨0, 0⟩, none, none, 1, none, []⟩], [],
         WorkspaceSettings.rustDefault⟩
        [⟨"n1", "image", ⟨3, 4⟩, none, none, 2, none, []⟩] ["n1"] [] []).nodes.countP
      (fun nd => nd.id == "n1") = 1 :=
  (batch_update_remove_before_add
    ⟨"2.0.0", [⟨"n1", "note", ⟨0, 0⟩, none, none, 1, none, []⟩], [],
     WorkspaceSettings.rustDefault⟩
    ⟨"n1", "note", ⟨0, 0⟩, none, none, 1, none, []⟩
    ⟨"n1", "image", ⟨3, 4⟩, none, none, 2, none, []⟩
    (List.mem_cons_self _ _) rfl).2

/-! ## C6: the vault-id fallback of canvas migration -/

/-- C6: whenever the grandparent vault-id lookup fails (for any of its
failure modes: no `vault.json`, unreadable file, malformed JSON, or a
parsed document whose `id` is absent or not a string), `migrate_canvas`
still succeeds — provided the legacy file itself is not unreadable — and
the migrated metadata carries the freshly minted placeholder UUID as its
`vault_id`. -/
theorem migrate_canvas_placeholder_on_lookup_failure (lk : VaultLookup)
    (hfail : get_vault_id_from_canvas_path lk = none)
    (oldFile : FileState JsonDoc) (hreadable : oldFile ≠ FileState.corrupt)
    (uid ufb now fname : String) :
    ∃ meta : CanvasMeta,
      migrate_canvas_meta oldFile lk uid ufb now fname = Except.ok meta ∧
      meta.vault_id = ufb := by
  match oldFile with
  | .corrupt => exact absurd rfl hreadable
  | .absent =>
    refine ⟨_, rfl, ?_⟩
    simp [CanvasMeta.new, hfail]
  | .present j =>
    refine ⟨_, rfl, ?_⟩
    simp [CanvasMeta.new, hfail]

/-- C6 witness: a malformed grandparent `vault.json` and no legacy
`canvas.json`. -/
theorem migrate_canvas_placeholder_witness :
    ∃ meta : CanvasMeta,
      migrate_canvas_meta FileState.absent VaultLookup.malformed
        "uid" "ufb" "now" "MyCanvas" = Except.ok meta ∧
      meta.vault_id = "ufb" :=
  migrate_canvas_placeholder_on_lookup_failure VaultLookup.malformed rfl
    FileState.absent (fun h => FileState.noConfusion h) "uid" "ufb" "now" "MyCanvas"

/-! ## C7: UI-state default when `state.json` is absent -/

/-- C7 (code bug): with no `state.json`, `load_state` returns
`CanvasUIState::default()`.  The derived default does give viewport
(0, 0, 1.0) and empty selections, but its `canvas_mode` is the empty
string — `String::default()` — not the `"select"` that the serde field
default `default_canvas_mode` (used only when deserializing a document
missing the field) would give and that the specification states. -/
theorem load_state_absent_returns_derived_default :
    CanvasService.load_state FileState.absent = Except.ok CanvasUIState.rustDefault ∧
    CanvasUIState.rustDefault.viewport = ⟨0, 0, 1⟩ ∧
    CanvasUIState.rustDefault.selected_nodes = [] ∧
    CanvasUIState.rustDefault.selected_edges = [] ∧
    CanvasUIState.rustDefault.canvas_mode = "" ∧
    CanvasUIState.rustDefault.canvas_mode ≠ default_canvas_mode ∧
    default_canvas_mode = "select" :=
  ⟨rfl, rfl, rfl, rfl, rfl, by decide, rfl⟩

/-! ## C8: history default when `history.json` is absent -/

/-- C8 (code bug): with no `history.json`, `HistoryService::load` returns
`AppHistory::default()`.  The collections are empty as documented, but the
derived default sets `max_items` to `usize::default() = 0`, not to the
serde field default `default_max_history = 50` (used only when
deserializing a document missing the field) that the specification
states. -/
theorem history_load_absent_returns_derived_default :
    HistoryService.load FileState.absent = Except.ok AppHistory.rustDefault ∧
    AppHistory.rustDefault.vaults = [] ∧
    AppHistory.rustDefault.canvases = [] ∧
    AppHistory.rustDefault.max_items = 0 ∧
    AppHistory.rustDefault.max_items ≠ default_max_history ∧
    default_max_history = 50 :=
  ⟨rfl, rfl, rfl, rfl, by decide, rfl⟩

/-! ## C9: `update_last_opened` frame conditions -/

/-- C9: `update_last_opened` on a stored state overwrites only the supplied
fields: supplying only a canvas id leaves `last_vault_id` untouched, and
supplying only a vault id leaves `last_canvas_id` untouched; `updated_at`
is stamped in either case (and `version` is never touched). -/
theorem update_last_opened_frame (s : AppState) (ln now vid cid : String) :
    (StateService.update_last_opened (FileState.present s) ln now none (some cid)
       = Except.ok (s.set_last_opened now none (some cid)) ∧
     (s.set_last_opened now none (some cid)).last_vault_id = s.last_vault_id ∧
     (s.set_last_opened now none (some cid)).last_canvas_id = some cid ∧
     (s.set_last_opened now none (some cid)).updated_at = now ∧
     (s.set_last_opened now none (some cid)).version = s.version) ∧
    (StateService.update_last_opened (FileState.present s) ln now (some vid) none
       = Except.ok (s.set_last_opened now (some vid) none) ∧
     (s.set_last_opened now (some vid) none).last_canvas_id = s.last_canvas_id ∧
     (s.set_last_opened now (some vid) none).last_vault_id = some vid ∧
     (s.set_last_opened now (some vid) none).updated_at = now ∧
     (s.set_last_opened now (some vid) none).version = s.version) := by
  refine ⟨⟨rfl, ?_, ?_, ?_, ?_⟩, ⟨rfl, ?_, ?_, ?_, ?_⟩⟩ <;>
    simp [AppState.set_last_opened]

/-! ## C5: folder-name collision suffix scan -/

theorem scan_suffix_eq (existing : List String) (base : String) :
    ∀ (fuel c k : Nat), 1 ≤ c → c ≤ k →
    (∀ j, j < k → c ≤ j → (base ++ "_" ++ Nat.repr j) ∈ existing) →
    (base ++ "_" ++ Nat.repr k) ∉ existing →
    k - c < fuel →
    scan_suffix existing base c fuel = base ++ "_" ++ Nat.repr k := by
  intro fuel
  induction fuel with
  | zero =>
    intro c k _ _ _ _ hlt
    omega
  | succ fuel ih =>
    intro c k hc hck htaken hfree hlt
    by_cases hek : c = k
    · subst hek
      have hcontains : existing.contains (base ++ "_" ++ Nat.repr c) = false := by
        rw [Bool.eq_false_iff]
        intro hcon
        exact hfree (List.elem_iff.mp hcon)
      simp only [scan_suffix, hcontains, Bool.false_eq_true, if_false]
    · have hcklt : c < k := lt_of_le_of_ne hck hek
      have hmem : (base ++ "_" ++ Nat.repr c) ∈ existing := htaken c hcklt le_rfl
      have hcontains : existing.contains (base ++ "_" ++ Nat.repr c) = true :=
        List.elem_iff.mpr hmem
      simp only [scan_suffix, hcontains, if_true]
      exact ih (c + 1) k (by omega) (by omega)
        (fun j hj hcj => htaken j hj (by omega)) hfree (by omega)

/-- C5: when the sanitized name collides with an existing folder,
`CanvasService::create` picks the first free integer suffix scanned
sequentially from 1: if the base name is taken, every candidate
`base_1 .. base_(k-1)` is taken and `base_k` is free (with `k` within the
collision bound forced by distinctness of the candidates), the created
folder is named `base_k`. -/
theorem create_folder_name_first_free (existing : List String) (name : String)
    (k : Nat)
    (hbase : sanitize_name name ∈ existing)
    (hk : 1 ≤ k)
    (htaken : ∀ j, j < k → 1 ≤ j →
      (sanitize_name name ++ "_" ++ Nat.repr j) ∈ existing)
    (hfree : (sanitize_name name ++ "_" ++ Nat.repr k) ∉ existing)
    (hbound : k ≤ existing.length + 1) :
    create_folder_name existing name = sanitize_name name ++ "_" ++ Nat.repr k := by
  have hc : existing.contains (sanitize_name name) = true :=
    List.elem_iff.mpr hbase
  simp only [create_folder_name, hc, if_true]
  exact scan_suffix_eq existing (sanitize_name name) (existing.length + 1) 1 k
    le_rfl hk (fun j hj h1 => htaken j hj h1) hfree (by omega)

/-- C5 witness: creating "X" with folder "X" present yields "X_1";
creating "X" with "X" and "X_1" present yields "X_2". -/
theorem create_folder_name_first_free_witness :
    create_folder_name ["X"] "X" = "X_1" ∧
    create_folder_name ["X", "X_1"] "X" = "X_2" := by
  constructor
  · exact (create_folder_name_first_free ["X"] "X" 1 (by decide) le_rfl
      (by intro j hj h1; omega) (by decide) (by decide)).trans (by decide)
  · exact (create_folder_name_first_free ["X", "X_1"] "X" 2 (by decide) (by omega)
      (by
        intro j hj h1
        have hj1 : j = 1 := by omega
        subst hj1
        decide) (by decide) (by decide)).trans (by decide)

/-! ## C10: `sanitize_name` character discipline -/

theorem head?_dropWhile_false {p : α → Bool} {l : List α} {x : α}
    (h : (l.dropWhile p).head? = some x) : p x = false := by
  have hmatch := List.head?_dropWhile_not p l
  rw [h] at hmatch
  exact hmatch

theorem getLast?_dropWhile_ne_nil (p : α → Bool) (l : List α)
    (h : l.dropWhile p ≠ []) : (l.dropWhile p).getLast? = l.getLast? := by
  induction l with
  | nil => simp at h
  | cons a l ih =>
    by_cases hp : p a
    · rw [List.dropWhile_cons, if_pos hp] at h ⊢
      match l, h with
      | b :: l', h =>
        rw [ih h, List.getLast?_cons_cons]
    · rw [List.dropWhile_cons, if_neg hp]

theorem mem_of_mem_trimChars {c : Char} {l : List Char}
    (h : c ∈ trimChars l) : c ∈ l := by
  unfold trimChars at h
  rw [List.mem_reverse] at h
  have h2 := (List.dropWhile_sublist _).mem h
  rw [List.mem_reverse] at h2
  exact (List.dropWhile_sublist _).mem h2

theorem trimChars_head?_not_ws {l : List Char} {c : Char}
    (h : (trimChars l).head? = some c) : c.isWhitespace = false := by
  unfold trimChars at h
  rw [List.head?_reverse] at h
  have hne : (l.dropWhile Char.isWhitespace).reverse.dropWhile Char.isWhitespace
      ≠ [] := by
    intro h0
    rw [h0] at h
    simp at h
  rw [getLast?_dropWhile_ne_nil _ _ hne, List.getLast?_reverse] at h
  exact head?_dropWhile_false h

theorem trimChars_getLast?_not_ws {l : List Char} {c : Char}
    (h : (trimChars l).getLast? = some c) : c.isWhitespace = false := by
  unfold trimChars at h
  rw [List.getLast?_reverse] at h
  exact head?_dropWhile_false h

theorem sanitize_chars_keep (l : List Char) :
    ∀ c ∈ sanitize_chars l, keep_char c = true := by
  intro c hc
  have hc' : c ∈ l.map map_char := mem_of_mem_trimChars hc
  obtain ⟨c', _, rfl⟩ := List.mem_map.mp hc'
  unfold map_char
  by_cases h : keep_char c'
  · rw [if_pos h]
    exact h
  · rw [if_neg h]
    decide

/-- C10: every character of the `sanitize_name` output is alphanumeric, a
dash, an underscore or a space (the disallowed characters, path separators
included, are mapped to underscore), and the output carries no leading or
trailing whitespace.  The function is a total Lean function, hence
deterministic and total by construction. -/
theorem sanitize_name_chars (s : String) :
    (∀ c ∈ (sanitize_name s).data,
        c.isAlphanum = true ∨ c = '-' ∨ c = '_' ∨ c = ' ') ∧
    (map_char '/' = '_' ∧ map_char '\\' = '_') ∧
    (∀ c, (sanitize_name s).data.head? = some c → c.isWhitespace = false) ∧
    (∀ c, (sanitize_name s).data.getLast? = some c → c.isWhitespace = false) := by
  have hdata : (sanitize_name s).data = sanitize_chars s.data := rfl
  refine ⟨?_, ⟨by decide, by decide⟩, ?_, ?_⟩
  · intro c hc
    rw [hdata] at hc
    have hk := sanitize_chars_keep s.data c hc
    have hk' : ((c.isAlphanum = true ∨ c = '-') ∨ c = '_') ∨ c = ' ' := by
      simpa [keep_char] using hk
    tauto
  · intro c hc
    rw [hdata] at hc
    exact trimChars_head?_not_ws hc
  · intro c hc
    rw [hdata] at hc
    exact trimChars_getLast?_not_ws hc

/-- C10 witness: a concrete input with a path separator and padding
whitespace. -/
theorem sanitize_name_chars_witness :
    ('a'.isAlphanum = true ∨ 'a' = '-' ∨ 'a' = '_' ∨ 'a' = ' ') ∧
    sanitize_name " a/b " = "a_b" :=
  ⟨(sanitize_name_chars " a/b ").1 'a' (by decide), by decide⟩

/-! ## C3: history upsert and cap -/

theorem updateFirst_length (p : α → Bool) (f : α → α) (l : List α) :
    (updateFirst p f l).length = l.length := by
  induction l with
  | nil => rfl
  | cons x xs ih => by_cases h : p x <;> simp [updateFirst, h, ih]

theorem updateFirst_countP (p : α → Bool) (f : α → α)
    (hp : ∀ x, p (f x) = p x) (l : List α) :
    (updateFirst p f l).countP p = l.countP p := by
  induction l with
  | nil => rfl
  | cons x xs ih =>
    by_cases h : p x <;>
      simp [updateFirst, h, List.countP_cons, ih, hp]

theorem updateFirst_match (p : α → Bool) (f : α → α) :
    ∀ l : List α, l.countP p = 1 →
      ∀ y ∈ updateFirst p f l, p y = true →
        ∃ x, x ∈ l ∧ p x = true ∧ y = f x := by
  intro l
  induction l with
  | nil =>
    intro h
    simp at h
  | cons a l ih =>
    intro hone y hy hpy
    by_cases ha : p a
    · have hl0 : l.countP p = 0 := by
        rw [List.countP_cons, if_pos ha] at hone
        omega
      simp only [updateFirst, ha, if_true] at hy
      rcases List.mem_cons.mp hy with rfl | hyl
      · exact ⟨a, List.mem_cons_self _ _, ha, rfl⟩
      · exact absurd hpy (by simpa using List.countP_eq_zero.mp hl0 y hyl)
    · simp only [updateFirst, ha, Bool.false_eq_true, if_false] at hy
      rcases List.mem_cons.mp hy with rfl | hyl
      · exact absurd hpy (by simpa using ha)
      · have hone' : l.countP p = 1 := by
          rw [List.countP_cons, if_neg ha] at hone
          omega
        obtain ⟨x, hx, hpx, hyx⟩ := ih hone' y hyl hpy
        exact ⟨x, List.mem_cons_of_mem _ hx, hpx, hyx⟩

theorem length_cap_le (L : List α) (m : Nat) :
    (if L.length > m then L.take m else L).length ≤ m := by
  by_cases hc : L.length > m
  · rw [if_pos hc, List.length_take]
    omega
  · rw [if_neg hc]
    omega

theorem track_vault_length_le (h : AppHistory) (now id name path : String) :
    (h.track_vault now id name path).vaults.length ≤ h.max_items := by
  simp only [AppHistory.track_vault]
  exact length_cap_le _ _

theorem track_vault_max_items (h : AppHistory) (now id name path : String) :
    (h.track_vault now id name path).max_items = h.max_items := rfl

theorem applyTracks_length_le (h0 : AppHistory) (calls : List TrackCall)
    (hne : calls ≠ []) :
    (applyTracks h0 calls).vaults.length ≤ h0.max_items := by
  induction calls generalizing h0 with
  | nil => exact absurd rfl hne
  | cons c cs ih =>
    have hstep : applyTracks h0 (c :: cs)
        = applyTracks (h0.track_vault c.now c.id c.name c.path) cs := rfl
    by_cases hcs : cs = []
    · subst hcs
      rw [hstep]
      exact track_vault_length_le h0 c.now c.id c.name c.path
    · rw [hstep]
      exact ih (h0.track_vault c.now c.id c.name c.path) hcs

theorem track_vault_fresh (h : AppHistory) (now id name path : String)
    (hfresh : ∀ v ∈ h.vaults, (v.id == id) = false)
    (hroom : h.vaults.length < h.max_items) :
    ((h.track_vault now id name path).vaults.countP (fun v => v.id == id) = 1) ∧
    (∀ v ∈ (h.track_vault now id name path).vaults,
        (v.id == id) = true → v.open_count = 1) ∧
    (h.track_vault now id name path).vaults.length = h.vaults.length + 1 := by
  have hany : h.vaults.any (fun v => v.id == id) = false := by
    rw [List.any_eq_false]
    intro v hv
    simp [hfresh v hv]
  have hnotrunc : ¬ (((h.vaults ++ [VaultHistoryEntry.mk id name path now 1 now]).mergeSort
      (fun a b => decide (b.last_opened ≤ a.last_opened))).length > h.max_items) := by
    rw [List.length_mergeSort, List.length_append]
    simp only [List.length_cons, List.length_nil]
    omega
  have hvaults : (h.track_vault now id name path).vaults =
      (h.vaults ++ [VaultHistoryEntry.mk id name path now 1 now]).mergeSort
        (fun a b => decide (b.last_opened ≤ a.last_opened)) := by
    simp only [AppHistory.track_vault, hany, Bool.false_eq_true, if_false, hnotrunc]
  have hperm := List.mergeSort_perm
    (h.vaults ++ [VaultHistoryEntry.mk id name path now 1 now])
    (fun a b => decide (b.last_opened ≤ a.last_opened))
  refine ⟨?_, ?_, ?_⟩
  · rw [hvaults, hperm.countP_eq, List.countP_append]
    have h0 : h.vaults.countP (fun v => v.id == id) = 0 :=
      List.countP_eq_zero.mpr (by intro v hv; simp [hfresh v hv])
    simp [h0]
  · intro v hv hpv
    rw [hvaults] at hv
    rcases List.mem_append.mp (hperm.mem_iff.mp hv) with hmem | hmem
    · exact absurd hpv (by simp [hfresh v hmem])
    · have hveq : v = VaultHistoryEntry.mk id name path now 1 now := by
        simpa using hmem
      rw [hveq]
  · rw [hvaults, List.length_mergeSort, List.length_append]
    rfl

theorem track_vault_existing (h : AppHistory) (now id name path : String) (k : Nat)
    (hone : h.vaults.countP (fun v => v.id == id) = 1)
    (hcount : ∀ v ∈ h.vaults, (v.id == id) = true → v.open_count = k)
    (hlen : h.vaults.length ≤ h.max_items) :
    ((h.track_vault now id name path).vaults.countP (fun v => v.id == id) = 1) ∧
    (∀ v ∈ (h.track_vault now id name path).vaults,
        (v.id == id) = true → v.open_count = k + 1) := by
  have hany : h.vaults.any (fun v => v.id == id) = true := by
    rw [List.any_eq_true]
    have hpos : 0 < h.vaults.countP (fun v => v.id == id) := by omega
    exact List.countP_pos_iff.mp hpos
  have hp : ∀ v : VaultHistoryEntry,
      (({ v with name := name, path := path, last_opened := now,
                 open_count := v.open_count + 1 } : VaultHistoryEntry).id == id)
        = (v.id == id) := fun v => rfl
  have hnotrunc : ¬ (((updateFirst (fun v => v.id == id)
      (fun v => { v with name := name, path := path, last_opened := now,
                         open_count := v.open_count + 1 })
      h.vaults).mergeSort
      (fun a b => decide (b.last_opened ≤ a.last_opened))).length > h.max_items) := by
    rw [List.length_mergeSort, updateFirst_length]
    omega
  have hvaults : (h.track_vault now id name path).vaults =
      (updateFirst (fun v => v.id == id)
        (fun v => { v with name := name, path := path, last_opened := now,
                           open_count := v.open_count + 1 })
        h.vaults).mergeSort
        (fun a b => decide (b.last_opened ≤ a.last_opened)) := by
    simp only [AppHistory.track_vault, hany, if_true, hnotrunc, if_false]
  have hperm := List.mergeSort_perm
    (updateFirst (fun v => v.id == id)
      (fun v => { v with name := name, path := path, last_opened := now,
                         open_count := v.open_count + 1 })
      h.vaults)
    (fun a b => decide (b.last_opened ≤ a.last_opened))
  constructor
  · rw [hvaults, hperm.countP_eq, updateFirst_countP _ _ hp, hone]
  · intro v hv hpv
    rw [hvaults] at hv
    obtain ⟨x, hx, hpx, hvx⟩ :=
      updateFirst_match (fun v => v.id == id) _ h.vaults hone v
        (hperm.mem_iff.mp hv) hpv
    rw [hvx]
    show x.open_count + 1 = k + 1
    rw [hcount x hx hpx]

/-- C3 (amended): starting from a history with no entry for this id and with
room below the cap, two `track_vault` calls with the same id leave exactly
one entry with that id and its `open_count` is 2; and after any nonempty
sequence of `track_vault` calls, starting from any history, the vaults
collection length is at most `max_items`. -/
theorem track_vault_upsert_and_cap (h : AppHistory)
    (id name path now1 name2 path2 now2 : String)
    (hfresh : ∀ v ∈ h.vaults, v.id ≠ id)
    (hroom : h.vaults.length < h.max_items) :
    (((h.track_vault now1 id name path).track_vault now2 id name2 path2).vaults.countP
        (fun v => v.id == id) = 1 ∧
     ∀ v ∈ ((h.track_vault now1 id name path).track_vault now2 id name2 path2).vaults,
        v.id = id → v.open_count = 2) ∧
    (∀ (h0 : AppHistory) (calls : List TrackCall), calls ≠ [] →
      (applyTracks h0 calls).vaults.length ≤ h0.max_items) := by
  have hfresh' : ∀ v ∈ h.vaults, (v.id == id) = false := by
    intro v hv
    exact beq_eq_false_iff_ne.mpr (hfresh v hv)
  obtain ⟨h1count, h1open, h1len⟩ := track_vault_fresh h now1 id name path hfresh' hroom
  have h1room : (h.track_vault now1 id name path).vaults.length
      ≤ (h.track_vault now1 id name path).max_items := by
    rw [h1len, track_vault_max_items]
    omega
  obtain ⟨h2count, h2open⟩ := track_vault_existing
    (h.track_vault now1 id name path) now2 id name2 path2 1 h1count h1open h1room
  refine ⟨⟨h2count, ?_⟩, fun h0 calls hne => applyTracks_length_le h0 calls hne⟩
  intro v hv hvid
  exact h2open v hv (beq_iff_eq.mpr hvid)

/-- C3 witness: an empty history with cap 3; two tracks of id "a" give one
entry with count 2, and a single call respects the cap. -/
theorem track_vault_upsert_and_cap_witness :
    ((((⟨[], [], 3⟩ : AppHistory).track_vault "t1" "a" "n" "p").track_vault
        "t2" "a" "n2" "p2").vaults.countP (fun v => v.id == "a") = 1) ∧
    (applyTracks ⟨[], [], 3⟩ [⟨"t1", "a", "n", "p"⟩]).vaults.length ≤ 3 := by
  have h := track_vault_upsert_and_cap ⟨[], [], 3⟩ "a" "n" "p" "t1" "n2" "p2" "t2"
    (by intro v hv; simp at hv) (by decide)
  exact ⟨h.1.1, h.2 ⟨[], [], 3⟩ [⟨"t1", "a", "n", "p"⟩] (by simp)⟩

/-- C3 counterexample: for a history that already holds an entry for the id
(here with `open_count = 5`), two `track_vault` calls leave an entry for
that id with `open_count = 7`, not 2 — the claimed "for every history
collection" fails; `open_count` accumulates on top of the stored value. -/
theorem track_vault_twice_not_always_two :
    ∃ v ∈ ((AppHistory.track_vault
        (AppHistory.track_vault
          ⟨[VaultHistoryEntry.mk "a" "n" "p" "t0" 5 "t0"], [], 50⟩
          "t1" "a" "n" "p")
        "t2" "a" "n" "p")).vaults,
      v.id = "a" ∧ v.open_count ≠ 2 := by
  have h5 : ∀ v ∈ (⟨[VaultHistoryEntry.mk "a" "n" "p" "t0" 5 "t0"], [],
      50⟩ : AppHistory).vaults, (v.id == "a") = true → v.open_count = 5 := by
    intro v hv _
    have hveq : v = VaultHistoryEntry.mk "a" "n" "p" "t0" 5 "t0" := by
      simpa using hv
    rw [hveq]
  obtain ⟨h1count, h1open⟩ := track_vault_existing
    ⟨[VaultHistoryEntry.mk "a" "n" "p" "t0" 5 "t0"], [], 50⟩
    "t1" "a" "n" "p" 5 (by decide) h5 (by decide)
  obtain ⟨h2count, h2open⟩ := track_vault_existing
    (AppHistory.track_vault
      ⟨[VaultHistoryEntry.mk "a" "n" "p" "t0" 5 "t0"], [], 50⟩ "t1" "a" "n" "p")
    "t2" "a" "n" "p" 6 h1count h1open
    (by
      rw [track_vault_max_items]
      exact track_vault_length_le _ _ _ _ _)
  have hpos : 0 < ((AppHistory.track_vault
      (AppHistory.track_vault
        ⟨[VaultHistoryEntry.mk "a" "n" "p" "t0" 5 "t0"], [], 50⟩
        "t1" "a" "n" "p")
      "t2" "a" "n" "p")).vaults.countP (fun v => v.id == "a") := by
    rw [h2count]
    omega
  obtain ⟨v, hv, hpv⟩ := List.countP_pos_iff.mp hpos
  exact ⟨v, hv, beq_iff_eq.mp hpv, by rw [h2open v hv hpv]; omega⟩
